import Mathlib

/-!
Verification development for the settings-binding utility in `conf.py`
(Poor Richard's Settings Framework).

The program is embedded shallowly:

* Python strings are `List Char` (`PyStr`).
* Python attribute values occurring in this program are `PyVal`
  (`None`, `bool`, `int`, `str`, and tuples of strings — the only tuple
  shapes the program's metadata fields `_optional_settings` /
  `_no_environ_set` use).
* The mutable settings class is an insertion-ordered association list
  `PyState` of attribute name to value, mirroring a class `__dict__`:
  `setattr` overwrites the first binding in place or appends a new one,
  `getattr` reads the first binding.
* The process environment is an association list of key/value string
  pairs in iteration order; keys are unique in a real process, and
  `os.getenv(k)` inside the loop is read off the current pair.
* Type annotations (`get_type_hints`) are a fixed association list from
  attribute name to `PyType`; `setattr` never touches annotations.
* An exception escaping a statement is modelled explicitly: a run of
  `update_from_env` ends in `RunResult.err` carrying the partially
  mutated state, and `get_missing_settings` returns `Except`.
-/

/-- Python strings, as lists of characters. -/
abbrev PyStr := List Char

/-- The Python values this program stores on the settings class:
`None`, booleans, integers, strings, and the tuples-of-strings used by
the `_optional_settings` / `_no_environ_set` metadata fields. -/
inductive PyVal where
  | VNone : PyVal
  | VBool (b : Bool) : PyVal
  | VInt (n : Int) : PyVal
  | VStr (s : PyStr) : PyVal
  | VTuple (elems : List PyStr) : PyVal
deriving DecidableEq

/-- The declared types (`type_hints` values) relevant to this program:
`int`, `bool`, `str`, and a `typing` generic alias such as `List[int]`
or `Tuple[str]` (calling a generic alias raises `TypeError`). -/
inductive PyType where
  | tyInt : PyType
  | tyBool : PyType
  | tyStr : PyType
  | tyGenericAlias : PyType
deriving DecidableEq

/-- The settings class as mutable state: its `__dict__` as an
insertion-ordered association list from attribute name to value. -/
abbrev PyState := List (PyStr × PyVal)

/-- The result of `get_type_hints(settings_class)`: attribute name to
declared type, fixed for the duration of a call. -/
abbrev TypeHints := List (PyStr × PyType)

/-- First binding of a key in an association list (a `dict` lookup /
`getattr` on the class `__dict__`). -/
def alistFind (a : PyStr) : List (PyStr × α) → Option α
  | [] => none
  | (b, v) :: rest => if b = a then some v else alistFind a rest

/-- `getattr(obj, a, d)`: the attribute value, or the default `d`. -/
def getattrD (s : PyState) (a : PyStr) (d : PyVal) : PyVal :=
  (alistFind a s).getD d

/-- `setattr(obj, a, v)`: overwrite the first binding of `a` in place,
or append a new binding (Python dicts keep insertion order and an
update keeps the key's position). -/
def setattrFn (s : PyState) (a : PyStr) (v : PyVal) : PyState :=
  match s with
  | [] => [(a, v)]
  | (b, w) :: rest => if b = a then (b, v) :: rest else (b, w) :: setattrFn rest a v

/-- Substring test: Python `pat in s` for strings. -/
def subStrB (pat : PyStr) : PyStr → Bool
  | [] => pat.isEmpty
  | c :: rest => List.isPrefixOf pat (c :: rest) || subStrB pat rest

/-- Python membership `a in container` where `a` is a string, as the
program uses it on the values of `_no_environ_set` /
`_optional_settings`: substring test on a string, element test on a
tuple, and a `TypeError` (modelled as `Except.error`) on the
non-iterable values `None` / `bool` / `int`. -/
def pyIn (a : PyStr) (container : PyVal) : Except Unit Bool :=
  match container with
  | .VStr s => .ok (subStrB a s)
  | .VTuple l => .ok (l.contains a)
  | _ => .error ()

/-- Python whitespace accepted by `int(...)` around the digits (ASCII). -/
def pyWS (c : Char) : Bool :=
  c == ' ' || c == '\t' || c == '\n' || c == '\r' || c.toNat == 11 || c.toNat == 12

/-- Strip leading and trailing whitespace. -/
def trimWS (s : PyStr) : PyStr :=
  ((s.dropWhile pyWS).reverse.dropWhile pyWS).reverse

/-- Digit-string tail check for Python `int(...)`: digits with single
underscores allowed strictly between digits. -/
def validUDigitsAux : PyStr → Bool
  | [] => true
  | c :: rest =>
    if c == '_' then
      match rest with
      | [] => false
      | d :: _ => d.isDigit && validUDigitsAux rest
    else c.isDigit && validUDigitsAux rest

/-- Digit-string check for Python `int(...)` after the optional sign:
nonempty, starts with a digit, single underscores only between digits. -/
def validUDigits (s : PyStr) : Bool :=
  match s with
  | [] => false
  | c :: rest => c.isDigit && validUDigitsAux rest

/-- Numeric value of an (already validated) digit string, skipping
underscores. -/
def digitsVal (s : PyStr) : Nat :=
  s.foldl (fun a c => if c == '_' then a else 10 * a + (c.toNat - 48)) 0

/-- Python `int(string)` on ASCII input: optional surrounding
whitespace, optional sign, digits (with `_` separators); `none` models
the `ValueError` raised on any other input. -/
def pyIntParse (s : PyStr) : Option Int :=
  match trimWS s with
  | '+' :: rest => if validUDigits rest then some (Int.ofNat (digitsVal rest)) else none
  | '-' :: rest => if validUDigits rest then some (-(Int.ofNat (digitsVal rest))) else none
  | t => if validUDigits t then some (Int.ofNat (digitsVal t)) else none

/-- Outcome of calling a declared type on a raw string
(line 77, `type_hints.get(attr)(v)`): a value, a failure of one of the
caught kinds (`AttributeError`, `KeyError`, `TypeError`), or a failure
of an uncaught kind (Python `int` raises `ValueError` on a bad
string, which line 78 does not catch). -/
inductive CoerceRes where
  | ok (v : PyVal) : CoerceRes
  | caught : CoerceRes
  | uncaught : CoerceRes
deriving DecidableEq

/-- Applying a declared type as a one-argument conversion to the raw
environment string: `int` parses or raises `ValueError` (uncaught kind),
`bool` is truthiness of the string (empty is falsy), `str` is identity,
and calling a `typing` generic alias raises `TypeError` (caught kind). -/
def pyCoerce : PyType → PyStr → CoerceRes
  | .tyInt, s =>
    match pyIntParse s with
    | some n => .ok (.VInt n)
    | none => .uncaught
  | .tyBool, s => .ok (.VBool (!s.isEmpty))
  | .tyStr, s => .ok (.VStr s)
  | .tyGenericAlias, _ => .caught

/-- Result of lines 74-79 for one variable: either a value to assign
(coerced, or the raw string when the hint is missing or the failure was
of a caught kind), or an escaping exception. -/
inductive CoerceStep where
  | value (v : PyVal) : CoerceStep
  | escape : CoerceStep
deriving DecidableEq

/-- Lines 74-79: `v = os.getenv(k)`, then
`try: v = type_hints.get(attr)(v) except (AttributeError, KeyError,
TypeError): pass`.  A missing hint makes `None(v)` raise `TypeError`
(caught); a caught coercion failure keeps the raw string; an uncaught
one (such as `ValueError` from `int`) escapes. -/
def coerceValue (hints : TypeHints) (attr raw : PyStr) : CoerceStep :=
  match alistFind attr hints with
  | none => .value (.VStr raw)
  | some t =>
    match pyCoerce t raw with
    | .ok w => .value w
    | .caught => .value (.VStr raw)
    | .uncaught => .escape

/-- Fuel-indexed body of Python `str.replace(pat, "")`: scan left to
right, deleting each non-overlapping occurrence of `pat` and resuming
after it.  Fuel `s.length` suffices since each step consumes at least
one character once `pat` is nonempty. -/
def pyReplaceGo (pat : PyStr) : Nat → PyStr → PyStr
  | _, [] => []
  | 0, s => s
  | fuel + 1, c :: rest =>
    if List.isPrefixOf pat (c :: rest) then pyReplaceGo pat fuel (List.drop pat.length (c :: rest))
    else c :: pyReplaceGo pat fuel rest

/-- Python `s.replace(pat, "")` as used on line 68 (the replacement is
the empty string, so replacing with `""` when `pat` is empty leaves `s`
unchanged, as in Python). -/
def pyReplaceDel (s pat : PyStr) : PyStr :=
  if pat.isEmpty then s else pyReplaceGo pat s.length s

/-- Line 68: `attr = k.replace(prefix, "").lower()` — note
`str.replace` removes every occurrence of the prefix, not only the
leading one, and lower-casing happens afterwards. -/
def deriveAttr (pfx k : PyStr) : PyStr :=
  (pyReplaceDel k pfx).map Char.toLower

/-- The attribute name `_no_environ_set` consulted on line 70. -/
def nesName : PyStr := ("_no_environ_set".toList)

/-- The attribute name `_optional_settings` consulted on line 105. -/
def optName : PyStr := ("_optional_settings".toList)

/-- The sensitive-name marker tested on line 86. -/
def passwordTok : PyStr := ("password".toList)

/-- The masking marker `****` of line 86. -/
def maskChars : PyStr := ("****".toList)

/-- Python `repr` of a string inside a tuple display (quoting only,
escaping is irrelevant to the program's inputs). -/
def pyQuote (s : PyStr) : PyStr := '\'' :: (s ++ ['\''])

/-- Comma-separated join for a tuple display. -/
def joinComma : List PyStr → PyStr
  | [] => []
  | [x] => x
  | x :: rest => x ++ (", ".toList) ++ joinComma rest

/-- Python `str` of a tuple of strings (one-element tuples print a
trailing comma). -/
def pyTupleRepr (l : List PyStr) : PyStr :=
  match l with
  | [x] => '(' :: (pyQuote x ++ (",)".toList))
  | _ => '(' :: (joinComma (l.map pyQuote) ++ (")".toList))

/-- Python `str(v)` as `"{}".format` uses it on line 83. -/
def pyStrOf : PyVal → PyStr
  | .VNone => ("None".toList)
  | .VBool b => if b then ("True".toList) else ("False".toList)
  | .VInt n => (toString n).toList
  | .VStr s => s
  | .VTuple l => pyTupleRepr l

/-- Line 86: the displayed value of the diagnostic record —
`"****{}".format(v[:4]) if "password" in attr else v`.  Slicing `v[:4]`
raises `TypeError` (modelled as `Except.error`, escaping the call) when
`v` is not sliceable (`int`, `bool`, `None`); strings and tuples slice
to their first four elements. -/
def displayedValue (attr : PyStr) (v : PyVal) : Except Unit PyStr :=
  if subStrB passwordTok attr then
    match v with
    | .VStr s => .ok (maskChars ++ s.take 4)
    | .VTuple l => .ok (maskChars ++ pyTupleRepr (l.take 4))
    | _ => .error ()
  else .ok (pyStrOf v)

/-- Line 71: the skip diagnostic. -/
def skipMsg (k : PyStr) : PyStr :=
  ("Skipping ".toList) ++ k ++ (". Disallowed set from environ.".toList)

/-- Lines 82-86: the per-variable diagnostic record. -/
def foundMsg (k attr disp : PyStr) : PyStr :=
  ("Found environment variable: ".toList) ++ k ++ (". (".toList) ++ attr
    ++ ("=".toList) ++ disp ++ (")".toList)

/-- Outcome of one loop iteration: continue with a new state and trace,
or an exception escaping with the state mutated so far. -/
inductive StepRes where
  | next (s : PyState) (tr : List PyStr) : StepRes
  | raised (s : PyState) (tr : List PyStr) : StepRes
deriving DecidableEq

/-- One iteration of the loop of lines 64-87 for the environment pair
`kv`: skip keys not starting with the prefix (line 65), derive the
attribute name (line 68), skip names listed in `_no_environ_set`
(lines 70-72, with the Python `in` test raising on non-iterable list
values), coerce (lines 74-79), log (lines 82-86, whose slicing can
raise), and assign (line 87). -/
def updateStep (hints : TypeHints) (pfx : PyStr) (s : PyState) (tr : List PyStr)
    (kv : PyStr × PyStr) : StepRes :=
  if List.isPrefixOf pfx kv.1 then
    match pyIn (deriveAttr pfx kv.1) (getattrD s nesName (PyVal.VTuple [])) with
    | .error _ => .raised s tr
    | .ok true => .next s (tr ++ [skipMsg kv.1])
    | .ok false =>
      match coerceValue hints (deriveAttr pfx kv.1) kv.2 with
      | .escape => .raised s tr
      | .value v =>
        match displayedValue (deriveAttr pfx kv.1) v with
        | .error _ => .raised s tr
        | .ok d =>
          .next (setattrFn s (deriveAttr pfx kv.1) v)
            (tr ++ [foundMsg kv.1 (deriveAttr pfx kv.1) d])
  else .next s tr

/-- Result of a whole `update_from_env` call: normal return, or an
exception escaping the call; both carry the final (possibly partially
mutated) state and the diagnostics emitted so far. -/
inductive RunResult where
  | ok (s : PyState) (tr : List PyStr) : RunResult
  | err (s : PyState) (tr : List PyStr) : RunResult
deriving DecidableEq

/-- The settings state after the call, whether or not it completed:
the class is mutated in place, so an escaping exception leaves the
assignments made so far. -/
def stateOf : RunResult → PyState
  | .ok s _ => s
  | .err s _ => s

/-- The diagnostics emitted during the call. -/
def traceOf : RunResult → List PyStr
  | .ok _ tr => tr
  | .err _ tr => tr

/-- Whether the call returned normally (no exception escaped). -/
def isOkRun : RunResult → Bool
  | .ok _ _ => true
  | .err _ _ => false

/-- The loop of lines 64-87 over the environment pairs in iteration
order. -/
def updateEnvGo (hints : TypeHints) (pfx : PyStr) :
    List (PyStr × PyStr) → PyState → List PyStr → RunResult
  | [], s, tr => .ok s tr
  | kv :: rest, s, tr =>
    match updateStep hints pfx s tr kv with
    | .next s2 tr2 => updateEnvGo hints pfx rest s2 tr2
    | .raised s2 tr2 => .err s2 tr2

/-- `update_from_env(settings_class, prefix=pfx)` of lines 47-87,
with `hints` the result of `get_type_hints(settings_class)` (line 62)
and `env` the process environment snapshot in iteration order.  The
`with threading.Lock():` of line 63 acquires a lock constructed in that
very expression and has no effect on the sequential semantics; it is
modelled separately by `update_from_env_lockUsed`. -/
def update_from_env (hints : TypeHints) (pfx : PyStr) (env : List (PyStr × PyStr))
    (s : PyState) : RunResult :=
  updateEnvGo hints pfx env s []

/-- Line 63 models: `with threading.Lock():` constructs a fresh lock
object and acquires that object.  Lock identity is modelled by an
allocation counter: `newLock ctr` returns the new lock's identity and
the next counter. -/
def newLock (ctr : Nat) : Nat × Nat := (ctr, ctr + 1)

/-- The lock an invocation of `update_from_env` acquires, given the
allocation counter at entry: line 63 allocates a fresh `threading.Lock()`
inside the `with` statement itself, so each invocation acquires a
brand-new lock. -/
def update_from_env_lockUsed (ctr : Nat) : Nat × Nat := newLock ctr

/-- The loop of lines 102-109 over the attributes of the class, with
`opt` the value of `getattr(settings_class, "_optional_settings", ())`
and `s` the full state used by the `getattr` of line 108.  `startswith`
is checked before the membership test (short-circuit), and a membership
test on a non-iterable `_optional_settings` value raises. -/
def getMissingGo (s : PyState) (opt : PyVal) : List (PyStr × PyVal) → Except Unit (List PyStr)
  | [] => .ok []
  | (attr, _) :: rest =>
    if List.isPrefixOf ("_".toList) attr then getMissingGo s opt rest
    else
      match pyIn attr opt with
      | .error e => .error e
      | .ok true => getMissingGo s opt rest
      | .ok false =>
        match getMissingGo s opt rest with
        | .error e => .error e
        | .ok r =>
          if getattrD s attr PyVal.VNone = PyVal.VNone then .ok (attr :: r) else .ok r

/-- `get_missing_settings(settings_class)` of lines 90-111: collect, in
attribute order, the names that do not start with `_`, are not in
`_optional_settings`, and whose value `is None`. -/
def get_missing_settings (s : PyState) : Except Unit (List PyStr) :=
  getMissingGo s (getattrD s optName (PyVal.VTuple [])) s

/-- Following the spec's words for the derivation step ("strip the
prefix, then lower-case the remainder", preserving any later occurrence
of the prefix inside the suffix): drop the leading prefix and
lower-case what remains. -/
def deriveAttrSpec (pfx k : PyStr) : PyStr :=
  (k.drop pfx.length).map Char.toLower

/-- The state effect of one loop iteration, abstracted from the trace:
skip the entry, write one attribute, or raise.  Used to reason about
repeated runs of the binding pass. -/
inductive EntryAction where
  | skipA : EntryAction
  | writeA (attr : PyStr) (v : PyVal) : EntryAction
  | raiseA : EntryAction
deriving DecidableEq

/-- The action an iteration of lines 64-87 performs on the state, as a
function of the fixed data of the pass (hints, prefix) and the current
value `nes` of the `_no_environ_set` attribute. -/
def entryAction (hints : TypeHints) (pfx : PyStr) (nes : PyVal) (kv : PyStr × PyStr) :
    EntryAction :=
  if List.isPrefixOf pfx kv.1 then
    match pyIn (deriveAttr pfx kv.1) nes with
    | .error _ => .raiseA
    | .ok true => .skipA
    | .ok false =>
      match coerceValue hints (deriveAttr pfx kv.1) kv.2 with
      | .escape => .raiseA
      | .value v =>
        match displayedValue (deriveAttr pfx kv.1) v with
        | .error _ => .raiseA
        | .ok _ => .writeA (deriveAttr pfx kv.1) v
  else .skipA

/-- Apply a list of entry actions to a state, stopping at the first
raise (an escaping exception ends the pass). -/
def applyActs (s : PyState) : List EntryAction → PyState
  | [] => s
  | .skipA :: rest => applyActs s rest
  | .writeA a v :: rest => applyActs (setattrFn s a v) rest
  | .raiseA :: _ => s

/-- The last value a list of entry actions writes to attribute `a`
before the first raise, if any. -/
def lastWrite : List EntryAction → PyStr → Option PyVal
  | [], _ => none
  | .skipA :: rest, a => lastWrite rest a
  | .raiseA :: _, _ => none
  | .writeA b v :: rest, a =>
    match lastWrite rest a with
    | some w => some w
    | none => if b = a then some v else none

/-- Following the spec's words for the validator: the names of the
fields, in definition order, whose name does not start with the
underscore marker, is not listed in the optional-settings list `l`, and
whose value is the `None` sentinel. -/
def findMissingSpec (s : PyState) (l : List PyStr) : List PyStr :=
  (s.filter fun p =>
    !(List.isPrefixOf ("_".toList) p.1) && !(l.contains p.1) && decide (p.2 = PyVal.VNone)).map
    Prod.fst

/-! ## Helper lemmas about the state operations -/

theorem alistFind_setattr_self (s : PyState) (a : PyStr) (v : PyVal) :
    alistFind a (setattrFn s a v) = some v := by
  induction s with
  | nil => simp [setattrFn, alistFind]
  | cons p rest ih =>
    obtain ⟨b, w⟩ := p
    by_cases hb : b = a
    · subst hb
      simp [setattrFn, alistFind]
    · simp [setattrFn, alistFind, hb, ih]

theorem alistFind_setattr_ne (s : PyState) (a b : PyStr) (v : PyVal) (h : b ≠ a) :
    alistFind a (setattrFn s b v) = alistFind a s := by
  induction s with
  | nil => simp [setattrFn, alistFind, h]
  | cons p rest ih =>
    obtain ⟨c, w⟩ := p
    by_cases hc : c = b
    · subst hc
      simp [setattrFn, alistFind, h]
    · simp [setattrFn, alistFind, hc, ih]

theorem getattrD_setattr_self (s : PyState) (a : PyStr) (v : PyVal) (d : PyVal) :
    getattrD (setattrFn s a v) a d = v := by
  simp [getattrD, alistFind_setattr_self]

theorem getattrD_setattr_ne (s : PyState) (a b : PyStr) (v : PyVal) (d : PyVal) (h : b ≠ a) :
    getattrD (setattrFn s b v) a d = getattrD s a d := by
  simp [getattrD, alistFind_setattr_ne s a b v h]

theorem alistFind_of_nodup (s : PyState) (hnd : (s.map Prod.fst).Nodup) :
    ∀ p ∈ s, alistFind p.1 s = some p.2 := by
  induction s with
  | nil => intro p hp; cases hp
  | cons q rest ih =>
    intro p hp
    obtain ⟨b, w⟩ := q
    rcases List.mem_cons.mp hp with hp | hp
    · subst hp
      simp [alistFind]
    · have hb : b ≠ p.1 := by
        intro hba
        have : p.1 ∈ rest.map Prod.fst := List.mem_map_of_mem Prod.fst hp
        rw [← hba] at this
        exact (List.nodup_cons.mp hnd).1 this
      simp only [alistFind, if_neg hb]
      exact ih (List.nodup_cons.mp hnd).2 p hp

theorem mem_getMissingGo (s : PyState) (opt : PyVal) :
    ∀ (f : List (PyStr × PyVal)) (r : List PyStr), getMissingGo s opt f = Except.ok r →
      ∀ a ∈ r, getattrD s a PyVal.VNone = PyVal.VNone := by
  intro f
  induction f with
  | nil =>
    intro r hr a ha
    simp only [getMissingGo] at hr
    cases hr
    cases ha
  | cons p rest ih =>
    intro r hr a ha
    obtain ⟨attr, w⟩ := p
    by_cases hu : List.isPrefixOf ("_".toList) attr
    · simp only [getMissingGo, if_pos hu] at hr
      exact ih r hr a ha
    · cases hin : pyIn attr opt with
      | error e =>
        simp only [getMissingGo, if_neg hu, hin] at hr
        cases hr
      | ok b =>
        cases b with
        | true =>
          simp only [getMissingGo, if_neg hu, hin] at hr
          exact ih r hr a ha
        | false =>
          cases hrec : getMissingGo s opt rest with
          | error e =>
            simp only [getMissingGo, if_neg hu, hin, hrec] at hr
            cases hr
          | ok r0 =>
            simp only [getMissingGo, if_neg hu, hin, hrec] at hr
            by_cases hv : getattrD s attr PyVal.VNone = PyVal.VNone
            · rw [if_pos hv] at hr
              cases hr
              rcases List.mem_cons.mp ha with ha | ha
              · subst ha; exact hv
              · exact ih _ hrec a ha
            · rw [if_neg hv] at hr
              cases hr
              exact ih _ hrec a ha

theorem mem_get_missing (s : PyState) (r : List PyStr)
    (h : get_missing_settings s = Except.ok r) (a : PyStr) (ha : a ∈ r) :
    getattrD s a PyVal.VNone = PyVal.VNone :=
  mem_getMissingGo s (getattrD s optName (PyVal.VTuple [])) s r h a ha

theorem getMissingGo_spec (s : PyState) (l : List PyStr) :
    ∀ f : List (PyStr × PyVal), (∀ p ∈ f, alistFind p.1 s = some p.2) →
      getMissingGo s (PyVal.VTuple l) f = Except.ok (findMissingSpec f l) := by
  intro f
  induction f with
  | nil => intro _; simp [getMissingGo, findMissingSpec]
  | cons p rest ih =>
    intro hf
    obtain ⟨attr, w⟩ := p
    have hrest := fun q hq => hf q (List.mem_cons_of_mem _ hq)
    have hhead : alistFind attr s = some w := hf (attr, w) (List.mem_cons_self _ _)
    have hget : getattrD s attr PyVal.VNone = w := by simp [getattrD, hhead]
    have hrec := ih hrest
    simp only [getMissingGo, findMissingSpec, List.filter_cons, pyIn]
    by_cases hu : (['_'] : List Char) <+: attr
    · have hu1 : (['_'] : List Char).isPrefixOf attr = true := List.isPrefixOf_iff_prefix.mpr hu
      simp [hu, hu1, hrec, findMissingSpec]
    · have hu2 : (['_'] : List Char).isPrefixOf attr = false := by
        rw [Bool.eq_false_iff]
        intro hcontr
        exact hu (List.isPrefixOf_iff_prefix.mp hcontr)
      by_cases hm : attr ∈ l
      · simp [hu, hu2, hm, hrec, findMissingSpec]
      · by_cases hv : w = PyVal.VNone
        · simp [hu, hu2, hm, hrec, hget, hv, findMissingSpec]
        · simp [hu, hu2, hm, hrec, hget, hv, findMissingSpec]

theorem displayedValue_str (attr s : PyStr) :
    displayedValue attr (PyVal.VStr s)
      = Except.ok (if subStrB passwordTok attr then maskChars ++ s.take 4 else s) := by
  unfold displayedValue
  by_cases h : subStrB passwordTok attr <;> simp [h, pyStrOf]

theorem singleEntryValueRun (hints : TypeHints) (pfx k raw : PyStr) (s : PyState)
    (v : PyVal) (d0 : PyStr)
    (hpre : List.isPrefixOf pfx k = true)
    (hskip : pyIn (deriveAttr pfx k) (getattrD s nesName (PyVal.VTuple [])) = Except.ok false)
    (hcv : coerceValue hints (deriveAttr pfx k) raw = CoerceStep.value v)
    (hdisp : displayedValue (deriveAttr pfx k) v = Except.ok d0) :
    update_from_env hints pfx [(k, raw)] s
      = RunResult.ok (setattrFn s (deriveAttr pfx k) v) [foundMsg k (deriveAttr pfx k) d0] := by
  have hstep : updateStep hints pfx s [] (k, raw)
      = StepRes.next (setattrFn s (deriveAttr pfx k) v)
          ([] ++ [foundMsg k (deriveAttr pfx k) d0]) := by
    unfold updateStep
    rw [if_pos hpre]
    simp only [hskip, hcv, hdisp]
  simp only [update_from_env, updateEnvGo, hstep]
  simp

theorem updateEnvGo_keeps_listed (hints : TypeHints) (pfx : PyStr) (nes : List PyStr)
    (name : PyStr) (d : PyVal) (hmem : nes.contains name = true) :
    ∀ (env : List (PyStr × PyStr)) (s : PyState) (tr : List PyStr),
      getattrD s nesName (PyVal.VTuple []) = PyVal.VTuple nes →
      (∀ kv ∈ env, List.isPrefixOf pfx kv.1 = true → deriveAttr pfx kv.1 ≠ nesName) →
      getattrD (stateOf (updateEnvGo hints pfx env s tr)) name d = getattrD s name d := by
  intro env
  induction env with
  | nil => intro s tr _ _; rfl
  | cons kv rest ih =>
    intro s tr hnes hno
    have hnorest := fun q hq => hno q (List.mem_cons_of_mem _ hq)
    by_cases hpre : List.isPrefixOf pfx kv.1
    · have hin : pyIn (deriveAttr pfx kv.1) (getattrD s nesName (PyVal.VTuple []))
          = Except.ok (nes.contains (deriveAttr pfx kv.1)) := by
        rw [hnes]
        rfl
      by_cases hcon : nes.contains (deriveAttr pfx kv.1) = true
      · have hstep : updateStep hints pfx s tr kv = StepRes.next s (tr ++ [skipMsg kv.1]) := by
          unfold updateStep
          rw [if_pos hpre]
          simp only [hin, hcon]
        simp only [updateEnvGo, hstep]
        exact ih s (tr ++ [skipMsg kv.1]) hnes hnorest
      · have hbb : nes.contains (deriveAttr pfx kv.1) = false := by
          rw [Bool.eq_false_iff]; exact hcon
        cases hcv : coerceValue hints (deriveAttr pfx kv.1) kv.2 with
        | escape =>
          have hstep : updateStep hints pfx s tr kv = StepRes.raised s tr := by
            unfold updateStep
            rw [if_pos hpre]
            simp only [hin, hbb, hcv]
          simp only [updateEnvGo, hstep]
          rfl
        | value v =>
          cases hdv : displayedValue (deriveAttr pfx kv.1) v with
          | error e =>
            have hstep : updateStep hints pfx s tr kv = StepRes.raised s tr := by
              unfold updateStep
              rw [if_pos hpre]
              simp only [hin, hbb, hcv, hdv]
            simp only [updateEnvGo, hstep]
            rfl
          | ok dd =>
            have hne : deriveAttr pfx kv.1 ≠ nesName := hno kv (List.mem_cons_self _ _) hpre
            have hnes2 : getattrD (setattrFn s (deriveAttr pfx kv.1) v) nesName (PyVal.VTuple [])
                = PyVal.VTuple nes := by
              rw [getattrD_setattr_ne _ _ _ _ _ hne]; exact hnes
            have hnename : deriveAttr pfx kv.1 ≠ name := by
              intro he
              rw [he, hmem] at hbb
              cases hbb
            have hstep : updateStep hints pfx s tr kv
                = StepRes.next (setattrFn s (deriveAttr pfx kv.1) v)
                    (tr ++ [foundMsg kv.1 (deriveAttr pfx kv.1) dd]) := by
              unfold updateStep
              rw [if_pos hpre]
              simp only [hin, hbb, hcv, hdv]
            simp only [updateEnvGo, hstep]
            rw [ih _ _ hnes2 hnorest]
            exact getattrD_setattr_ne _ _ _ _ _ hnename
    · have hpre2 : List.isPrefixOf pfx kv.1 = false := by
        rw [Bool.eq_false_iff]; exact hpre
      have hstep : updateStep hints pfx s tr kv = StepRes.next s tr := by
        unfold updateStep
        rw [if_neg hpre]
      simp only [updateEnvGo, hstep]
      exact ih s tr hnes hnorest

theorem pyReplaceGo_no_occurrence (pat : PyStr) :
    ∀ (fuel : Nat) (s : PyStr), s.length ≤ fuel → subStrB pat s = false →
      pyReplaceGo pat fuel s = s := by
  intro fuel
  induction fuel with
  | zero =>
    intro s hlen _
    cases s with
    | nil => rfl
    | cons c rest => simp at hlen
  | succ n ih =>
    intro s hlen hocc
    cases s with
    | nil => rfl
    | cons c rest =>
      simp only [subStrB, Bool.or_eq_false_iff] at hocc
      obtain ⟨h1, h2⟩ := hocc
      have hlen2 : rest.length ≤ n := by
        simp only [List.length_cons] at hlen
        omega
      simp only [pyReplaceGo, h1, Bool.false_eq_true, if_false]
      rw [ih rest hlen2 h2]

theorem pyReplaceDel_strip (c : Char) (ptl rest : PyStr)
    (hocc : subStrB (c :: ptl) rest = false) :
    pyReplaceDel ((c :: ptl) ++ rest) (c :: ptl) = rest := by
  unfold pyReplaceDel
  simp only [List.isEmpty_cons, Bool.false_eq_true, if_false]
  rw [List.cons_append, List.length_cons]
  have hcond : List.isPrefixOf (c :: ptl) (c :: (ptl ++ rest)) = true :=
    List.isPrefixOf_iff_prefix.mpr (List.prefix_append (c :: ptl) rest)
  simp only [pyReplaceGo, hcond, if_true]
  rw [List.length_cons, List.drop_succ_cons, List.drop_left]
  have hlen : rest.length ≤ (ptl ++ rest).length := by
    simp [List.length_append]
  exact pyReplaceGo_no_occurrence (c :: ptl) (ptl ++ rest).length rest hlen hocc

theorem deriveAttr_strip (pfx rest : PyStr) (hne : pfx ≠ [])
    (hocc : subStrB pfx rest = false) :
    deriveAttr pfx (pfx ++ rest) = rest.map Char.toLower := by
  cases pfx with
  | nil => exact absurd rfl hne
  | cons c ptl =>
    unfold deriveAttr
    rw [pyReplaceDel_strip c ptl rest hocc]

theorem deriveAttr_self_empty (pfx : PyStr) (hne : pfx ≠ []) : deriveAttr pfx pfx = [] := by
  have hocc : subStrB pfx [] = false := by
    cases pfx with
    | nil => exact absurd rfl hne
    | cons c t => rfl
  have h := deriveAttr_strip pfx [] hne hocc
  rw [List.append_nil] at h
  simpa using h

theorem updateStep_cases (hints : TypeHints) (pfx : PyStr) (s : PyState) (tr : List PyStr)
    (kv : PyStr × PyStr) :
    (entryAction hints pfx (getattrD s nesName (PyVal.VTuple [])) kv = EntryAction.skipA ∧
      ∃ tr2, updateStep hints pfx s tr kv = StepRes.next s tr2) ∨
    (∃ v, entryAction hints pfx (getattrD s nesName (PyVal.VTuple [])) kv
        = EntryAction.writeA (deriveAttr pfx kv.1) v ∧
      ∃ tr2, updateStep hints pfx s tr kv
        = StepRes.next (setattrFn s (deriveAttr pfx kv.1) v) tr2) ∨
    (entryAction hints pfx (getattrD s nesName (PyVal.VTuple [])) kv = EntryAction.raiseA ∧
      updateStep hints pfx s tr kv = StepRes.raised s tr) := by
  by_cases hpre : List.isPrefixOf pfx kv.1
  · cases hin : pyIn (deriveAttr pfx kv.1) (getattrD s nesName (PyVal.VTuple [])) with
    | error e =>
      right; right
      constructor
      · unfold entryAction; rw [if_pos hpre]; simp only [hin]
      · unfold updateStep; rw [if_pos hpre]; simp only [hin]
    | ok b =>
      cases b with
      | true =>
        left
        constructor
        · unfold entryAction; rw [if_pos hpre]; simp only [hin]
        · refine ⟨tr ++ [skipMsg kv.1], ?_⟩
          unfold updateStep; rw [if_pos hpre]; simp only [hin]
      | false =>
        cases hcv : coerceValue hints (deriveAttr pfx kv.1) kv.2 with
        | escape =>
          right; right
          constructor
          · unfold entryAction; rw [if_pos hpre]; simp only [hin, hcv]
          · unfold updateStep; rw [if_pos hpre]; simp only [hin, hcv]
        | value v =>
          cases hdv : displayedValue (deriveAttr pfx kv.1) v with
          | error e =>
            right; right
            constructor
            · unfold entryAction; rw [if_pos hpre]; simp only [hin, hcv, hdv]
            · unfold updateStep; rw [if_pos hpre]; simp only [hin, hcv, hdv]
          | ok dd =>
            right; left
            refine ⟨v, ?_, ⟨tr ++ [foundMsg kv.1 (deriveAttr pfx kv.1) dd], ?_⟩⟩
            · unfold entryAction; rw [if_pos hpre]; simp only [hin, hcv, hdv]
            · unfold updateStep; rw [if_pos hpre]; simp only [hin, hcv, hdv]
  · left
    constructor
    · unfold entryAction; rw [if_neg hpre]
    · exact ⟨tr, by unfold updateStep; rw [if_neg hpre]⟩

theorem entryAction_writeA_attr (hints : TypeHints) (pfx : PyStr) (nes : PyVal)
    (kv : PyStr × PyStr) (a : PyStr) (v : PyVal)
    (h : entryAction hints pfx nes kv = EntryAction.writeA a v) :
    List.isPrefixOf pfx kv.1 = true ∧ a = deriveAttr pfx kv.1 := by
  by_cases hpre : List.isPrefixOf pfx kv.1
  · refine ⟨hpre, ?_⟩
    unfold entryAction at h
    rw [if_pos hpre] at h
    cases hin : pyIn (deriveAttr pfx kv.1) nes with
    | error e => rw [hin] at h; cases h
    | ok b =>
      cases b with
      | true => rw [hin] at h; cases h
      | false =>
        rw [hin] at h
        cases hcv : coerceValue hints (deriveAttr pfx kv.1) kv.2 with
        | escape =>
          simp only [hcv] at h
          cases h
        | value w =>
          simp only [hcv] at h
          cases hdv : displayedValue (deriveAttr pfx kv.1) w with
          | error e =>
            simp only [hdv] at h
            cases h
          | ok dd =>
            simp only [hdv] at h
            cases h
            rfl
  · unfold entryAction at h
    rw [if_neg hpre] at h
    cases h

theorem updateEnvGo_plan (hints : TypeHints) (pfx : PyStr) (nes : PyVal) :
    ∀ (env : List (PyStr × PyStr)) (s : PyState) (tr : List PyStr),
      getattrD s nesName (PyVal.VTuple []) = nes →
      (∀ kv ∈ env, List.isPrefixOf pfx kv.1 = true → deriveAttr pfx kv.1 ≠ nesName) →
      stateOf (updateEnvGo hints pfx env s tr)
        = applyActs s (env.map (entryAction hints pfx nes)) := by
  intro env
  induction env with
  | nil => intro s tr _ _; rfl
  | cons kv rest ih =>
    intro s tr hnes hno
    have hnorest := fun q hq => hno q (List.mem_cons_of_mem _ hq)
    rcases updateStep_cases hints pfx s tr kv with ⟨ha, tr2, hstep⟩ | ⟨v, ha, tr2, hstep⟩ |
      ⟨ha, hstep⟩
    · rw [hnes] at ha
      simp only [List.map_cons, updateEnvGo, hstep, ha, applyActs]
      exact ih s tr2 hnes hnorest
    · rw [hnes] at ha
      have hmatch := entryAction_writeA_attr hints pfx nes kv _ _ ha
      have hne : deriveAttr pfx kv.1 ≠ nesName := hno kv (List.mem_cons_self _ _) hmatch.1
      have hnes2 : getattrD (setattrFn s (deriveAttr pfx kv.1) v) nesName (PyVal.VTuple [])
          = nes := by
        rw [getattrD_setattr_ne _ _ _ _ _ hne]; exact hnes
      simp only [List.map_cons, updateEnvGo, hstep, ha, applyActs]
      exact ih _ tr2 hnes2 hnorest
    · rw [hnes] at ha
      simp only [List.map_cons, updateEnvGo, hstep, ha, applyActs]
      rfl

theorem getattrD_applyActs :
    ∀ (acts : List EntryAction) (s : PyState) (a : PyStr) (d : PyVal),
      getattrD (applyActs s acts) a d =
        match lastWrite acts a with
        | some v => v
        | none => getattrD s a d := by
  intro acts
  induction acts with
  | nil => intro s a d; rfl
  | cons act rest ih =>
    intro s a d
    cases act with
    | skipA => simp only [applyActs, lastWrite]; exact ih s a d
    | raiseA => rfl
    | writeA b v =>
      simp only [applyActs, lastWrite]
      rw [ih (setattrFn s b v) a d]
      cases hlw : lastWrite rest a with
      | some w => simp [hlw]
      | none =>
        by_cases hba : b = a
        · subst hba
          simp [hlw, getattrD_setattr_self]
        · simp [hlw, hba, getattrD_setattr_ne s a b v d hba]

theorem lastWrite_none_of_no_target (name : PyStr) :
    ∀ acts : List EntryAction, (∀ b v, EntryAction.writeA b v ∈ acts → b ≠ name) →
      lastWrite acts name = none := by
  intro acts
  induction acts with
  | nil => intro _; rfl
  | cons act rest ih =>
    intro h
    cases act with
    | skipA =>
      simp only [lastWrite]
      exact ih (fun b v hb => h b v (List.mem_cons_of_mem _ hb))
    | raiseA => rfl
    | writeA b v =>
      have hb : b ≠ name := h b v (List.mem_cons_self _ _)
      simp only [lastWrite]
      rw [ih (fun b2 v2 hb2 => h b2 v2 (List.mem_cons_of_mem _ hb2))]
      simp [hb]

theorem applyActs_twice (acts : List EntryAction) (s : PyState) (a : PyStr) (d : PyVal) :
    getattrD (applyActs (applyActs s acts) acts) a d = getattrD (applyActs s acts) a d := by
  rw [getattrD_applyActs, getattrD_applyActs]
  cases hlw : lastWrite acts a with
  | some w => rfl
  | none => rfl

/-! ## Claim theorems -/

/-- Claim C1, counterexample: coercion failure is not always swallowed.
For the declared `int` field `s1` and the raw value `"abc"`, line 77
raises `ValueError`, which the `except` clause of line 78 (catching
only `AttributeError`, `KeyError`, `TypeError`) does not catch: the
exception escapes `update_from_env` and the raw string is not stored. -/
theorem update_from_env_valueError_escapes :
    update_from_env [(("s1".toList), PyType.tyInt)] ("MYAPP_".toList)
        [(("MYAPP_S1".toList), ("abc".toList))] [(("s1".toList), PyVal.VNone)]
      = RunResult.err [(("s1".toList), PyVal.VNone)] [] := by
  rfl

/-- Claim C1 (amended): when coercion of a matching variable's raw
string against the declared type fails with one of the caught exception
kinds (`AttributeError`, `KeyError`, `TypeError` — e.g. calling a
`typing` generic alias), `update_from_env` stores the raw string on the
derived field and returns normally; failures of other kinds (such as
`ValueError` from `int`) escape the call instead. -/
theorem update_from_env_caught_fallback (hints : TypeHints) (pfx k raw : PyStr) (s : PyState)
    (t : PyType)
    (hpre : List.isPrefixOf pfx k = true)
    (hskip : pyIn (deriveAttr pfx k) (getattrD s nesName (PyVal.VTuple [])) = Except.ok false)
    (hhint : alistFind (deriveAttr pfx k) hints = some t)
    (hfail : pyCoerce t raw = CoerceRes.caught) :
    isOkRun (update_from_env hints pfx [(k, raw)] s) = true ∧
      getattrD (stateOf (update_from_env hints pfx [(k, raw)] s)) (deriveAttr pfx k)
        PyVal.VNone = PyVal.VStr raw := by
  have hcv : coerceValue hints (deriveAttr pfx k) raw = CoerceStep.value (PyVal.VStr raw) := by
    unfold coerceValue
    simp only [hhint, hfail]
  have hrun := singleEntryValueRun hints pfx k raw s (PyVal.VStr raw) _ hpre hskip hcv
    (displayedValue_str (deriveAttr pfx k) raw)
  rw [hrun]
  exact ⟨rfl, getattrD_setattr_self _ _ _ _⟩

/-- Claim C1 witness: a `Tuple[str]`-annotated field bound from the
value `"1,2"` fails coercion with `TypeError` (caught) and keeps the
raw string, and the call returns normally. -/
theorem update_from_env_caught_fallback_witness :
    isOkRun (update_from_env [(("s5".toList), PyType.tyGenericAlias)] ("MYAPP_".toList)
        [(("MYAPP_S5".toList), ("1,2".toList))] []) = true ∧
      getattrD (stateOf (update_from_env [(("s5".toList), PyType.tyGenericAlias)]
          ("MYAPP_".toList) [(("MYAPP_S5".toList), ("1,2".toList))] []))
        (deriveAttr ("MYAPP_".toList) ("MYAPP_S5".toList)) PyVal.VNone
        = PyVal.VStr ("1,2".toList) :=
  update_from_env_caught_fallback _ _ _ _ _ _ (by decide) rfl rfl rfl

/-- Claim C2: line 63 executes `with threading.Lock():`, which
constructs a brand-new lock object inside each invocation and acquires
that fresh lock.  Two invocations therefore never acquire the same
lock, contradicting the documented process-wide mutual exclusion: the
lock used by a call differs from the lock used by the next call. -/
theorem update_from_env_lock_not_shared (ctr : Nat) :
    (update_from_env_lockUsed ctr).1
      ≠ (update_from_env_lockUsed (update_from_env_lockUsed ctr).2).1 := by
  simp only [update_from_env_lockUsed, newLock]
  omega

/-- Claim C3: `get_missing_settings` returns exactly the names of the
fields, in definition order, whose name does not start with an
underscore, is not listed in the `_optional_settings` list, and whose
current value is `None` — provided the `_optional_settings` value is a
tuple and the field names are distinct (as for a Python class dict). -/
theorem get_missing_settings_correct (s : PyState) (l : List PyStr)
    (hopt : getattrD s optName (PyVal.VTuple []) = PyVal.VTuple l)
    (hnd : (s.map Prod.fst).Nodup) :
    get_missing_settings s = Except.ok (findMissingSpec s l) := by
  unfold get_missing_settings
  rw [hopt]
  exact getMissingGo_spec s l s (alistFind_of_nodup s hnd)

/-- Claim C3 witness: on the test fixture (optional field excluded,
`setting1` unset, `setting2` set) the validator reports exactly
`setting1`. -/
theorem get_missing_settings_correct_witness :
    get_missing_settings [((optName), PyVal.VTuple [("optional".toList)]),
        (("setting1".toList), PyVal.VNone), (("setting2".toList), PyVal.VInt 123),
        (("optional".toList), PyVal.VNone)]
      = Except.ok [("setting1".toList)] := by
  have h := get_missing_settings_correct [((optName), PyVal.VTuple [("optional".toList)]),
      (("setting1".toList), PyVal.VNone), (("setting2".toList), PyVal.VInt 123),
      (("optional".toList), PyVal.VNone)] [("optional".toList)] rfl (by decide)
  rw [h]
  rfl

/-- Claim C4, counterexample: a field listed in `_no_environ_set` does
not always keep its pre-call value.  The key `MYAPP__NO_ENVIRON_SET`
derives the attribute `_no_environ_set` itself, which is not a member
of the tuple `("s5",)`, so line 87 overwrites the list with the string
`"x"`; the later key `MYAPP_S5` then checks `"s5" in "x"` (substring
test, false) and assigns `s5` even though `s5` was listed before the
call. -/
theorem no_environ_set_override_bypass :
    List.contains [("s5".toList)] ("s5".toList) = true ∧
    getattrD [((nesName), PyVal.VTuple [("s5".toList)]), (("s5".toList), PyVal.VNone)]
        ("s5".toList) PyVal.VNone = PyVal.VNone ∧
    getattrD (stateOf (update_from_env [] ("MYAPP_".toList)
        [(("MYAPP__NO_ENVIRON_SET".toList), ("x".toList)), (("MYAPP_S5".toList), ("v".toList))]
        [((nesName), PyVal.VTuple [("s5".toList)]), (("s5".toList), PyVal.VNone)]))
      ("s5".toList) PyVal.VNone = PyVal.VStr ("v".toList) := by
  exact ⟨rfl, rfl, rfl⟩

/-- Claim C4 (amended): every field listed in the `_no_environ_set`
tuple keeps its pre-call value, provided no matching environment
variable derives the attribute name `_no_environ_set` itself (a
variable that does can overwrite the exclusion list mid-pass and void
the protection for later entries). -/
theorem no_environ_set_preserved (hints : TypeHints) (pfx : PyStr)
    (env : List (PyStr × PyStr)) (s : PyState) (nes : List PyStr) (name : PyStr) (d : PyVal)
    (hnes : getattrD s nesName (PyVal.VTuple []) = PyVal.VTuple nes)
    (hmem : nes.contains name = true)
    (hno : ∀ kv ∈ env, List.isPrefixOf pfx kv.1 = true → deriveAttr pfx kv.1 ≠ nesName) :
    getattrD (stateOf (update_from_env hints pfx env s)) name d = getattrD s name d :=
  updateEnvGo_keeps_listed hints pfx nes name d hmem env s [] hnes hno

/-- Claim C4 witness: with `s5` listed in `_no_environ_set` and a
matching `MYAPP_S5` variable present, the field keeps its value. -/
theorem no_environ_set_preserved_witness :
    getattrD (stateOf (update_from_env [] ("MYAPP_".toList)
        [(("MYAPP_S5".toList), ("v".toList))]
        [((nesName), PyVal.VTuple [("s5".toList)]), (("s5".toList), PyVal.VTuple [])]))
      ("s5".toList) PyVal.VNone
      = getattrD [((nesName), PyVal.VTuple [("s5".toList)]),
          (("s5".toList), PyVal.VTuple [])] ("s5".toList) PyVal.VNone :=
  no_environ_set_preserved _ _ _ _ [("s5".toList)] _ _ rfl (by decide) (by decide)

/-- Claim C5, counterexample: the diagnostic of line 86 shows
`"****" + v[:4]` — the masking marker followed by a prefix of the
value, not a prefix followed by a marker — so for the password value
`"abc"` (length at most four) the full value appears in the emitted
trace record. -/
theorem password_trace_leaks_short_value :
    traceOf (update_from_env [] ("MYAPP_".toList)
        [(("MYAPP_DB_PASSWORD".toList), ("abc".toList))] [])
      = [foundMsg ("MYAPP_DB_PASSWORD".toList) ("db_password".toList) ("****abc".toList)] ∧
    subStrB ("abc".toList)
        (foundMsg ("MYAPP_DB_PASSWORD".toList) ("db_password".toList) ("****abc".toList))
      = true := by
  exact ⟨rfl, by decide⟩

/-- Claim C5 (amended): for a field whose name contains `"password"`,
the displayed value in the diagnostic record is exactly the masking
marker `****` followed by the first four characters of the bound
string value; values of length at most four therefore appear in full
after the marker, while longer values are truncated to their first
four characters. -/
theorem password_display_masks (attr s : PyStr)
    (h : subStrB passwordTok attr = true) :
    displayedValue attr (PyVal.VStr s) = Except.ok (maskChars ++ s.take 4) := by
  rw [displayedValue_str]
  simp [h]

/-- Claim C5 witness: binding `db_password` to `"supersecret"` displays
`****supe`. -/
theorem password_display_masks_witness :
    displayedValue ("db_password".toList) (PyVal.VStr ("supersecret".toList))
      = Except.ok (maskChars ++ (("supersecret".toList)).take 4) :=
  password_display_masks _ _ (by decide)

/-- Claim C6, counterexample: line 68 uses `str.replace`, which removes
every occurrence of the prefix from the key, not only the leading one.
For prefix `MYAPP_` and key `MYAPP_XMYAPP_Y` the code derives `xy`,
while stripping only the front (the claim) would give `xmyapp_y`; the
run assigns the attribute `xy` and no attribute `xmyapp_y` exists. -/
theorem deriveAttr_removes_all_occurrences :
    deriveAttr ("MYAPP_".toList) ("MYAPP_XMYAPP_Y".toList) = ("xy".toList) ∧
    deriveAttrSpec ("MYAPP_".toList) ("MYAPP_XMYAPP_Y".toList) = ("xmyapp_y".toList) ∧
    stateOf (update_from_env [] ("MYAPP_".toList)
        [(("MYAPP_XMYAPP_Y".toList), ("z".toList))] [])
      = [(("xy".toList), PyVal.VStr ("z".toList))] ∧
    alistFind ("xmyapp_y".toList) (stateOf (update_from_env [] ("MYAPP_".toList)
        [(("MYAPP_XMYAPP_Y".toList), ("z".toList))] [])) = none := by
  exact ⟨by decide, by decide, rfl, rfl⟩

/-- Claim C6 (amended): the candidate field name is obtained by
removing every occurrence of the prefix from the key and lower-casing
the result; when the prefix does not occur again in the suffix this
coincides with stripping the leading prefix and lower-casing the
remainder. -/
theorem deriveAttr_strips_when_unique (pfx rest : PyStr) (h1 : pfx ≠ [])
    (h2 : subStrB pfx rest = false) :
    deriveAttr pfx (pfx ++ rest) = deriveAttrSpec pfx (pfx ++ rest) := by
  rw [deriveAttr_strip pfx rest h1 h2]
  unfold deriveAttrSpec
  rw [List.drop_left]

/-- Claim C6 witness: for prefix `MYAPP_` and key `MYAPP_S1` (no
re-occurrence) the code's derivation agrees with the spec's. -/
theorem deriveAttr_strips_when_unique_witness :
    deriveAttr ("MYAPP_".toList) (("MYAPP_".toList) ++ ("S1".toList))
      = deriveAttrSpec ("MYAPP_".toList) (("MYAPP_".toList) ++ ("S1".toList)) :=
  deriveAttr_strips_when_unique _ _ (by decide) (by decide)

/-- Claim C7, counterexample: for a `typing`-generic-typed field the
empty value is indeed stored as the empty string (the `TypeError` is
caught), but `get_missing_settings` checks `is None` and therefore
does NOT report the field; and for an `int`-typed field the coercion
of `""` raises `ValueError`, which escapes the call and nothing is
stored at all. -/
theorem empty_value_stored_not_reported :
    update_from_env [(("s1".toList), PyType.tyGenericAlias)] ("MYAPP_".toList)
        [(("MYAPP_S1".toList), [])] [(("s1".toList), PyVal.VNone)]
      = RunResult.ok [(("s1".toList), PyVal.VStr [])]
          [foundMsg ("MYAPP_S1".toList) ("s1".toList) []] ∧
    get_missing_settings [(("s1".toList), PyVal.VStr [])] = Except.ok [] ∧
    update_from_env [(("s1".toList), PyType.tyInt)] ("MYAPP_".toList)
        [(("MYAPP_S1".toList), [])] [(("s1".toList), PyVal.VNone)]
      = RunResult.err [(("s1".toList), PyVal.VNone)] [] := by
  exact ⟨rfl, rfl, rfl⟩

/-- Claim C7 (amended): when a matching variable is present with the
empty string and the declared type's coercion of `""` fails with a
caught exception kind, `update_from_env` stores the empty string on
the field; but the stored empty string is not the `None` sentinel, so
`get_missing_settings` does not report the field (an `int`-typed
field's coercion of `""` instead raises `ValueError`, which escapes). -/
theorem empty_value_fallback_not_missing (hints : TypeHints) (pfx k : PyStr) (s : PyState)
    (t : PyType)
    (hpre : List.isPrefixOf pfx k = true)
    (hskip : pyIn (deriveAttr pfx k) (getattrD s nesName (PyVal.VTuple [])) = Except.ok false)
    (hhint : alistFind (deriveAttr pfx k) hints = some t)
    (hfail : pyCoerce t [] = CoerceRes.caught) :
    getattrD (stateOf (update_from_env hints pfx [(k, [])] s)) (deriveAttr pfx k) PyVal.VNone
        = PyVal.VStr [] ∧
    ∀ r, get_missing_settings (stateOf (update_from_env hints pfx [(k, [])] s)) = Except.ok r →
      deriveAttr pfx k ∉ r := by
  have hcv : coerceValue hints (deriveAttr pfx k) [] = CoerceStep.value (PyVal.VStr []) := by
    unfold coerceValue
    simp only [hhint, hfail]
  have hrun := singleEntryValueRun hints pfx k [] s (PyVal.VStr []) _ hpre hskip hcv
    (displayedValue_str (deriveAttr pfx k) [])
  rw [hrun]
  refine ⟨getattrD_setattr_self _ _ _ _, ?_⟩
  intro r hr hmemr
  have hvn := mem_get_missing _ r hr _ hmemr
  simp only [stateOf] at hvn
  rw [getattrD_setattr_self] at hvn
  cases hvn

/-- Claim C7 witness: the generic-typed field `s1` bound from the empty
string holds `""` afterwards and the validator reports nothing. -/
theorem empty_value_fallback_not_missing_witness :
    getattrD (stateOf (update_from_env [(("s1".toList), PyType.tyGenericAlias)]
        ("MYAPP_".toList) [(("MYAPP_S1".toList), [])] [(("s1".toList), PyVal.VNone)]))
      (deriveAttr ("MYAPP_".toList) ("MYAPP_S1".toList)) PyVal.VNone = PyVal.VStr [] ∧
    deriveAttr ("MYAPP_".toList) ("MYAPP_S1".toList) ∉ ([] : List PyStr) := by
  have h := empty_value_fallback_not_missing [(("s1".toList), PyType.tyGenericAlias)]
    ("MYAPP_".toList) ("MYAPP_S1".toList) [(("s1".toList), PyVal.VNone)] PyType.tyGenericAlias
    (by decide) rfl rfl rfl
  exact ⟨h.1, h.2 [] rfl⟩

/-- Claim C8, counterexample: a successful coercion is not always
stored.  For the password-named declared `int` field `password_count`
bound from `"5"`, the coercion succeeds (`int("5")` is `5`), but
line 86 evaluates `v[:4]` on the integer (because `"password"` occurs
in the attribute name) and raises `TypeError` outside the `try` block;
the exception escapes before the `setattr` of line 87 and the field
keeps `None` instead of the coerced value. -/
theorem password_int_coercion_escapes :
    pyCoerce PyType.tyInt ("5".toList) = CoerceRes.ok (PyVal.VInt 5) ∧
    update_from_env [(("password_count".toList), PyType.tyInt)] ("MYAPP_".toList)
        [(("MYAPP_PASSWORD_COUNT".toList), ("5".toList))]
        [(("password_count".toList), PyVal.VNone)]
      = RunResult.err [(("password_count".toList), PyVal.VNone)] [] ∧
    getattrD [(("password_count".toList), PyVal.VNone)] ("password_count".toList) PyVal.VNone
      = PyVal.VNone := by
  exact ⟨rfl, rfl, rfl⟩

/-- Claim C8 (amended): when the derived field name has a declared type,
applying it to the raw string succeeds, and the diagnostic display of
the coerced value does not raise (which holds whenever the field name
does not contain `"password"`, or the coerced value is a string),
`update_from_env` stores the coerced value on the field and returns
normally; for a password-named field whose coerced value is not
sliceable, the `v[:4]` of line 86 instead raises an escaping
`TypeError` before the assignment. -/
theorem update_from_env_coerces (hints : TypeHints) (pfx k raw : PyStr) (s : PyState)
    (t : PyType) (w : PyVal) (d0 : PyStr)
    (hpre : List.isPrefixOf pfx k = true)
    (hskip : pyIn (deriveAttr pfx k) (getattrD s nesName (PyVal.VTuple [])) = Except.ok false)
    (hhint : alistFind (deriveAttr pfx k) hints = some t)
    (hok : pyCoerce t raw = CoerceRes.ok w)
    (hdisp : displayedValue (deriveAttr pfx k) w = Except.ok d0) :
    isOkRun (update_from_env hints pfx [(k, raw)] s) = true ∧
      getattrD (stateOf (update_from_env hints pfx [(k, raw)] s)) (deriveAttr pfx k)
        PyVal.VNone = w := by
  have hcv : coerceValue hints (deriveAttr pfx k) raw = CoerceStep.value w := by
    unfold coerceValue
    simp only [hhint, hok]
  have hrun := singleEntryValueRun hints pfx k raw s w d0 hpre hskip hcv hdisp
  rw [hrun]
  exact ⟨rfl, getattrD_setattr_self _ _ _ _⟩

/-- Claim C8 witness: the declared `int` field `s1` bound from `"32"`
holds the integer `32` afterwards, not the string `"32"`. -/
theorem update_from_env_coerces_witness :
    isOkRun (update_from_env [(("s1".toList), PyType.tyInt)] ("MYAPP_".toList)
        [(("MYAPP_S1".toList), ("32".toList))] [(("s1".toList), PyVal.VNone)]) = true ∧
      getattrD (stateOf (update_from_env [(("s1".toList), PyType.tyInt)] ("MYAPP_".toList)
          [(("MYAPP_S1".toList), ("32".toList))] [(("s1".toList), PyVal.VNone)]))
        (deriveAttr ("MYAPP_".toList) ("MYAPP_S1".toList)) PyVal.VNone = PyVal.VInt 32 :=
  update_from_env_coerces _ _ _ _ _ _ _ ("32".toList) (by decide) rfl rfl (by decide) rfl

/-- Claim C9, counterexample: two consecutive calls are not always
equivalent to one.  With `_no_environ_set = ("s5",)` and the
environment iterated as `MYAPP_S5` then `MYAPP__NO_ENVIRON_SET`, the
first call skips `s5` but overwrites `_no_environ_set` with the string
`"x"`; the second call then finds `"s5" in "x"` false and assigns
`s5`, so the state after two calls differs from the state after one. -/
theorem update_from_env_twice_differs :
    getattrD (stateOf (update_from_env [] ("MYAPP_".toList)
        [(("MYAPP_S5".toList), ("v".toList)), (("MYAPP__NO_ENVIRON_SET".toList), ("x".toList))]
        [((nesName), PyVal.VTuple [("s5".toList)]), (("s5".toList), PyVal.VNone)]))
      ("s5".toList) PyVal.VNone = PyVal.VNone ∧
    getattrD (stateOf (update_from_env [] ("MYAPP_".toList)
        [(("MYAPP_S5".toList), ("v".toList)), (("MYAPP__NO_ENVIRON_SET".toList), ("x".toList))]
        (stateOf (update_from_env [] ("MYAPP_".toList)
          [(("MYAPP_S5".toList), ("v".toList)),
            (("MYAPP__NO_ENVIRON_SET".toList), ("x".toList))]
          [((nesName), PyVal.VTuple [("s5".toList)]), (("s5".toList), PyVal.VNone)]))))
      ("s5".toList) PyVal.VNone = PyVal.VStr ("v".toList) := by
  exact ⟨rfl, rfl⟩

/-- Claim C9 (amended): calling `update_from_env` twice with the same
environment and prefix leaves every field with the same value as
calling it once, provided no matching environment variable derives the
attribute name `_no_environ_set` (such a variable can overwrite the
skip list between the passes and change which fields the second pass
assigns). -/
theorem update_from_env_idempotent (hints : TypeHints) (pfx : PyStr)
    (env : List (PyStr × PyStr)) (s : PyState)
    (hno : ∀ kv ∈ env, List.isPrefixOf pfx kv.1 = true → deriveAttr pfx kv.1 ≠ nesName)
    (a : PyStr) (d : PyVal) :
    getattrD (stateOf (update_from_env hints pfx env
        (stateOf (update_from_env hints pfx env s)))) a d
      = getattrD (stateOf (update_from_env hints pfx env s)) a d := by
  simp only [update_from_env]
  have h1 := updateEnvGo_plan hints pfx (getattrD s nesName (PyVal.VTuple [])) env s [] rfl hno
  have hwr : ∀ b v, EntryAction.writeA b v
      ∈ env.map (entryAction hints pfx (getattrD s nesName (PyVal.VTuple []))) →
        b ≠ nesName := by
    intro b v hb
    obtain ⟨kv, hkv, hact⟩ := List.mem_map.mp hb
    obtain ⟨hm, hb2⟩ := entryAction_writeA_attr _ _ _ _ _ _ hact
    rw [hb2]
    exact hno kv hkv hm
  have hlw := lastWrite_none_of_no_target nesName _ hwr
  have hpres : getattrD (stateOf (updateEnvGo hints pfx env s [])) nesName (PyVal.VTuple [])
      = getattrD s nesName (PyVal.VTuple []) := by
    rw [h1, getattrD_applyActs, hlw]
  have h2 := updateEnvGo_plan hints pfx (getattrD s nesName (PyVal.VTuple [])) env
    (stateOf (updateEnvGo hints pfx env s [])) [] hpres hno
  rw [h2, h1]
  exact applyActs_twice _ _ _ _

/-- Claim C9 witness: a plain binding pass (one `int` field) is
idempotent on the bound field. -/
theorem update_from_env_idempotent_witness :
    getattrD (stateOf (update_from_env [(("s1".toList), PyType.tyInt)] ("MYAPP_".toList)
        [(("MYAPP_S1".toList), ("7".toList))]
        (stateOf (update_from_env [(("s1".toList), PyType.tyInt)] ("MYAPP_".toList)
          [(("MYAPP_S1".toList), ("7".toList))] [(("s1".toList), PyVal.VNone)]))))
      ("s1".toList) PyVal.VNone
      = getattrD (stateOf (update_from_env [(("s1".toList), PyType.tyInt)] ("MYAPP_".toList)
          [(("MYAPP_S1".toList), ("7".toList))] [(("s1".toList), PyVal.VNone)]))
        ("s1".toList) PyVal.VNone :=
  update_from_env_idempotent _ _ _ _ (by decide) _ _

/-- Claim C10, counterexample: a variable whose key is exactly the
prefix is not unconditionally processed — the derived empty attribute
name is still checked against `_no_environ_set`, so a definition
listing the empty string there makes line 70 skip the entry and no
empty-named attribute is created. -/
theorem prefix_exact_key_skipped_when_listed :
    update_from_env [] ("MYAPP_".toList) [(("MYAPP_".toList), ("x".toList))]
        [((nesName), PyVal.VTuple [[]])]
      = RunResult.ok [((nesName), PyVal.VTuple [[]])] [skipMsg ("MYAPP_".toList)] ∧
    alistFind [] [((nesName), PyVal.VTuple [[]])] = none := by
  exact ⟨rfl, rfl⟩

/-- Claim C10 (amended): for a non-empty prefix, a variable whose key
is exactly the prefix derives the empty string as field name and — if
the empty string is not listed in `_no_environ_set` and carries no type
annotation — is assigned: the raw value lands on an attribute named by
the empty string. -/
theorem prefix_exact_key_assigns_empty_name (hints : TypeHints) (pfx v : PyStr) (s : PyState)
    (h1 : pfx ≠ [])
    (hskip : pyIn [] (getattrD s nesName (PyVal.VTuple [])) = Except.ok false)
    (hhint : alistFind [] hints = none) :
    update_from_env hints pfx [(pfx, v)] s
      = RunResult.ok (setattrFn s [] (PyVal.VStr v)) [foundMsg pfx [] v] ∧
      getattrD (setattrFn s [] (PyVal.VStr v)) [] PyVal.VNone = PyVal.VStr v := by
  have hda : deriveAttr pfx pfx = [] := deriveAttr_self_empty pfx h1
  have hpre : List.isPrefixOf pfx pfx = true :=
    List.isPrefixOf_iff_prefix.mpr (List.prefix_refl pfx)
  have hskip2 : pyIn (deriveAttr pfx pfx) (getattrD s nesName (PyVal.VTuple []))
      = Except.ok false := by
    rw [hda]
    exact hskip
  have hcv : coerceValue hints (deriveAttr pfx pfx) v = CoerceStep.value (PyVal.VStr v) := by
    unfold coerceValue
    simp only [hda, hhint]
  have hpw : subStrB passwordTok ([] : PyStr) = false := rfl
  have hdisp : displayedValue (deriveAttr pfx pfx) (PyVal.VStr v) = Except.ok v := by
    rw [hda, displayedValue_str, hpw]
    simp
  have hrun := singleEntryValueRun hints pfx pfx v s (PyVal.VStr v) v hpre hskip2 hcv hdisp
  rw [hda] at hrun
  exact ⟨hrun, getattrD_setattr_self _ _ _ _⟩

/-- Claim C10 witness: with no exclusions and no annotations, the key
equal to the prefix assigns its value to the empty-named attribute. -/
theorem prefix_exact_key_assigns_empty_name_witness :
    update_from_env [] ("MYAPP_".toList) [(("MYAPP_".toList), ("x".toList))] []
      = RunResult.ok (setattrFn [] [] (PyVal.VStr ("x".toList)))
          [foundMsg ("MYAPP_".toList) [] ("x".toList)] ∧
      getattrD (setattrFn [] [] (PyVal.VStr ("x".toList))) [] PyVal.VNone
        = PyVal.VStr ("x".toList) :=
  prefix_exact_key_assigns_empty_name _ _ _ _ (by decide) rfl rfl
